import Mathlib

/-!
Verification of the OpenAI-compatible converse service
(`openaiConverseService.ts` / `messageConverter.ts`).

The development shallowly embeds the protocol-translation layer:
  * a JSON value model (the TS code manipulates `JSON.parse`d values),
    together with the JavaScript truthiness / property-access /
    string-coercion semantics the source relies on;
  * the outbound message converter (`convertMessagesToOpenAI`,
    `convertSystemToOpenAI`, `convertToolConfigToOpenAI`,
    `buildOpenAIRequest`);
  * the non-streaming response translator (`convertNonStreamingResponse`);
  * the streaming SSE translator (the async iterator built by
    `createBedrockStreamFromOpenAI`), modelled as an explicit state
    machine consuming decoded text chunks and producing the flat list of
    Bedrock stream events the iterator would deliver;
  * the retry decision logic of `handleError` / `handleStreamError`.

Modelling conventions:
  * JSON numbers are restricted to integers (no floating point enters any
    verified property); a numeric literal with a fractional part simply
    fails to parse in this model.
  * `Date.now()` is modelled by an explicit `now : Int` parameter.
  * byte chunks are modelled as decoded text chunks (strings), matching
    the `TextDecoder` output the source splits on `'\n'`.
-/

/-- JSON values, as produced by `JSON.parse`. Numbers are modelled as
integers. -/
inductive Json where
  | null : Json
  | bool : Bool → Json
  | num : Int → Json
  | str : String → Json
  | arr : List Json → Json
  | obj : List (String × Json) → Json

/-- JavaScript truthiness of a JSON value (`if (v)`): `null`, `false`,
`0` and `""` are falsy; arrays and objects are always truthy. -/
def jsTruthy : Json → Bool
  | .null => false
  | .bool b => b
  | .num n => n != 0
  | .str s => s != ""
  | .arr _ => true
  | .obj _ => true

/-- Truthiness of a possibly-absent (`undefined`) value. -/
def optTruthy (v : Option Json) : Bool :=
  match v with
  | some j => jsTruthy j
  | none => false

/-- Last binding of a key in an object's field list. `JSON.parse` keeps
the last duplicate key, so lookup returns the last match. -/
def lookupField : List (String × Json) → String → Option Json
  | [], _ => none
  | (k, v) :: rest, key =>
    match lookupField rest key with
    | some r => some r
    | none => if k = key then some v else none

/-- Property access `v.key` on a JSON value; `none` models `undefined`
(properties of non-objects are `undefined`). -/
def getField? (j : Json) (key : String) : Option Json :=
  match j with
  | .obj fs => lookupField fs key
  | _ => none

mutual
/-- Structural equality on JSON values; models the SameValueZero key
comparison used by the tool-call accumulator `Map` (primitive keys are
compared by value). -/
def Json.beq : Json → Json → Bool
  | .null, .null => true
  | .bool a, .bool b => a == b
  | .num a, .num b => a == b
  | .str a, .str b => a == b
  | .arr a, .arr b => Json.beqList a b
  | .obj a, .obj b => Json.beqFields a b
  | _, _ => false

/-- Elementwise `Json.beq` on lists. -/
def Json.beqList : List Json → List Json → Bool
  | [], [] => true
  | a :: as, b :: bs => Json.beq a b && Json.beqList as bs
  | _, _ => false

/-- Fieldwise `Json.beq` on objects. -/
def Json.beqFields : List (String × Json) → List (String × Json) → Bool
  | [], [] => true
  | (k1, v1) :: as, (k2, v2) :: bs =>
    k1 == k2 && Json.beq v1 v2 && Json.beqFields as bs
  | _, _ => false
end

/-- One escaped source character of a JSON string literal
(`JSON.stringify` escaping). -/
def escapeJsonChar (c : Char) : List Char :=
  if c = '"' then ['\\', '"']
  else if c = '\\' then ['\\', '\\']
  else if c = '\n' then ['\\', 'n']
  else if c = '\r' then ['\\', 'r']
  else if c = '\t' then ['\\', 't']
  else if c = Char.ofNat 8 then ['\\', 'b']
  else if c = Char.ofNat 12 then ['\\', 'f']
  else if c.toNat < 32 then
    ['\\', 'u', '0', '0',
     (if c.toNat / 16 < 10 then Char.ofNat (48 + c.toNat / 16)
      else Char.ofNat (87 + c.toNat / 16)),
     (if c.toNat % 16 < 10 then Char.ofNat (48 + c.toNat % 16)
      else Char.ofNat (87 + c.toNat % 16))]
  else [c]

/-- JSON string literal encoding, quotes included. -/
def encodeJsonString (s : String) : String :=
  String.mk ('"' :: s.data.foldr (fun c acc => escapeJsonChar c ++ acc) ['"'])

mutual
/-- `JSON.stringify` on the JSON model (integers print in decimal). -/
def jsonStringify : Json → String
  | .null => "null"
  | .bool true => "true"
  | .bool false => "false"
  | .num n => toString n
  | .str s => encodeJsonString s
  | .arr xs => "[" ++ jsonStringifyList xs ++ "]"
  | .obj fs => "\x7b" ++ jsonStringifyFields fs ++ "\x7d"

/-- Comma-separated stringification of array elements. -/
def jsonStringifyList : List Json → String
  | [] => ""
  | [x] => jsonStringify x
  | x :: xs => jsonStringify x ++ "," ++ jsonStringifyList xs

/-- Comma-separated stringification of object fields. -/
def jsonStringifyFields : List (String × Json) → String
  | [] => ""
  | [(k, v)] => encodeJsonString k ++ ":" ++ jsonStringify v
  | (k, v) :: fs =>
    encodeJsonString k ++ ":" ++ jsonStringify v ++ "," ++ jsonStringifyFields fs
end

/-- Whether a JSON value is `null` (used for the JS `x === null` and
element-stringification checks). -/
def isNullJson : Json → Bool
  | .null => true
  | _ => false

mutual
/-- JavaScript `String(v)` coercion of a JSON value (used by template
literals and `+=` string concatenation in the source). -/
def jsToString : Json → String
  | .null => "null"
  | .bool true => "true"
  | .bool false => "false"
  | .num n => toString n
  | .str s => s
  | .arr xs => jsToStringList xs
  | .obj _ => "[object Object]"

/-- `Array.prototype.toString`: elements joined with `,`; `null`
elements render as the empty string. -/
def jsToStringList : List Json → String
  | [] => ""
  | [x] => if isNullJson x then "" else jsToString x
  | x :: xs =>
    (if isNullJson x then "" else jsToString x) ++ "," ++ jsToStringList xs
end

/-- Skip JSON whitespace (space, tab, newline, carriage return). -/
def skipWs : List Char → List Char
  | [] => []
  | c :: cs =>
    if c = ' ' ∨ c = '\t' ∨ c = '\n' ∨ c = '\r' then skipWs cs else c :: cs

/-- Hexadecimal digit value. -/
def hexVal (c : Char) : Option Nat :=
  if '0' ≤ c ∧ c ≤ '9' then some (c.toNat - 48)
  else if 'a' ≤ c ∧ c ≤ 'f' then some (c.toNat - 87)
  else if 'A' ≤ c ∧ c ≤ 'F' then some (c.toNat - 55)
  else none

/-- Decimal digit value. -/
def digitVal (c : Char) : Option Nat :=
  if '0' ≤ c ∧ c ≤ '9' then some (c.toNat - 48) else none

/-- Parse the body of a JSON string literal (after the opening quote),
returning the decoded string and the input after the closing quote. -/
def parseStringBody : List Char → Option (String × List Char)
  | [] => none
  | c :: rest =>
    if c = '"' then some ("", rest)
    else if c = '\\' then
      match rest with
      | [] => none
      | e :: rest2 =>
        if e = 'u' then
          match rest2 with
          | h1 :: h2 :: h3 :: h4 :: rest3 =>
            match hexVal h1, hexVal h2, hexVal h3, hexVal h4 with
            | some a, some b, some c2, some d =>
              match parseStringBody rest3 with
              | some (s, r) =>
                some (String.mk (Char.ofNat (((a * 16 + b) * 16 + c2) * 16 + d) :: s.data), r)
              | none => none
            | _, _, _, _ => none
          | _ => none
        else
          let dec : Option Char :=
            if e = '"' then some '"'
            else if e = '\\' then some '\\'
            else if e = '/' then some '/'
            else if e = 'n' then some '\n'
            else if e = 't' then some '\t'
            else if e = 'r' then some '\r'
            else if e = 'b' then some (Char.ofNat 8)
            else if e = 'f' then some (Char.ofNat 12)
            else none
          match dec with
          | some d =>
            match parseStringBody rest2 with
            | some (s, r) => some (String.mk (d :: s.data), r)
            | none => none
          | none => none
    else
      match parseStringBody rest with
      | some (s, r) => some (String.mk (c :: s.data), r)
      | none => none

/-- Parse a nonempty run of decimal digits. -/
def parseDigits : Nat → List Char → Nat × List Char
  | acc, [] => (acc, [])
  | acc, c :: cs =>
    match digitVal c with
    | some d => parseDigits (acc * 10 + d) cs
    | none => (acc, c :: cs)

/-- Parse an integer JSON number (optional minus sign, then digits). -/
def parseNumberFrom : List Char → Option (Int × List Char)
  | [] => none
  | c :: cs =>
    if c = '-' then
      match cs with
      | d :: _ =>
        match digitVal d with
        | some _ => let (n, r) := parseDigits 0 cs; some (-(n : Int), r)
        | none => none
      | [] => none
    else
      match digitVal c with
      | some _ => let (n, r) := parseDigits 0 (c :: cs); some ((n : Int), r)
      | none => none

mutual
/-- Fuel-indexed recursive-descent parser for one JSON value.
Returns the value and the unconsumed input. -/
def parseValue : Nat → List Char → Option (Json × List Char)
  | 0, _ => none
  | fuel + 1, input =>
    match skipWs input with
    | [] => none
    | c :: rest =>
      if c = 'n' then
        match rest with
        | 'u' :: 'l' :: 'l' :: r => some (.null, r)
        | _ => none
      else if c = 't' then
        match rest with
        | 'r' :: 'u' :: 'e' :: r => some (.bool true, r)
        | _ => none
      else if c = 'f' then
        match rest with
        | 'a' :: 'l' :: 's' :: 'e' :: r => some (.bool false, r)
        | _ => none
      else if c = '"' then
        match parseStringBody rest with
        | some (s, r) => some (.str s, r)
        | none => none
      else if c = '[' then
        match skipWs rest with
        | ']' :: r2 => some (.arr [], r2)
        | r1 => parseElems fuel r1 []
      else if c = '\x7b' then
        match skipWs rest with
        | '\x7d' :: r2 => some (.obj [], r2)
        | r1 => parseFields fuel r1 []
      else
        match parseNumberFrom (c :: rest) with
        | some (n, r) => some (.num n, r)
        | none => none

/-- Parse the remaining elements of a JSON array. -/
def parseElems : Nat → List Char → List Json → Option (Json × List Char)
  | 0, _, _ => none
  | fuel + 1, cs, acc =>
    match parseValue fuel cs with
    | none => none
    | some (v, r) =>
      match skipWs r with
      | ',' :: r2 => parseElems fuel r2 (acc ++ [v])
      | ']' :: r2 => some (.arr (acc ++ [v]), r2)
      | _ => none

/-- Parse the remaining fields of a JSON object. -/
def parseFields : Nat → List Char → List (String × Json) → Option (Json × List Char)
  | 0, _, _ => none
  | fuel + 1, cs, acc =>
    match skipWs cs with
    | '"' :: r1 =>
      match parseStringBody r1 with
      | none => none
      | some (k, r2) =>
        match skipWs r2 with
        | ':' :: r3 =>
          match parseValue fuel r3 with
          | none => none
          | some (v, r4) =>
            match skipWs r4 with
            | ',' :: r5 => parseFields fuel r5 (acc ++ [(k, v)])
            | '\x7d' :: r5 => some (.obj (acc ++ [(k, v)]), r5)
            | _ => none
        | _ => none
    | _ => none
end

/-- Model of `JSON.parse`: parse one JSON value and require only
whitespace to remain; `none` models a thrown `SyntaxError`. -/
def jsonParse (s : String) : Option Json :=
  match parseValue (2 * s.length + 4) s.data with
  | some (v, rest) =>
    match skipWs rest with
    | [] => some v
    | _ => none
  | none => none

/-- JavaScript whitespace for `String.prototype.trim` (the characters
that can occur in this protocol: space, tab, CR, LF, form feed,
vertical tab). -/
def isJsWs (c : Char) : Bool :=
  c = ' ' ∨ c = '\t' ∨ c = '\n' ∨ c = '\r' ∨ c = Char.ofNat 11 ∨ c = Char.ofNat 12

/-- `String.prototype.trim`. -/
def jsTrim (s : String) : String :=
  String.mk (((s.data.dropWhile isJsWs).reverse.dropWhile isJsWs).reverse)

/-- Character-list prefix test (for `String.prototype.startsWith`). -/
def listStartsWith : List Char → List Char → Bool
  | [], _ => true
  | _ :: _, [] => false
  | p :: ps, c :: cs => p = c && listStartsWith ps cs

/-- `String.prototype.startsWith`. -/
def jsStartsWith (s pre : String) : Bool :=
  listStartsWith pre.data s.data

/-- `String.prototype.slice(n)` for a nonnegative index. -/
def jsSlice (s : String) (n : Nat) : String :=
  String.mk (s.data.drop n)

/-- Character-list infix test (for `String.prototype.includes`): does
the needle occur at some position of the haystack? -/
def listIncludes (needle : List Char) : List Char → Bool
  | [] => listStartsWith needle []
  | c :: cs => listStartsWith needle (c :: cs) || listIncludes needle cs

/-- `String.prototype.includes`. -/
def jsIncludes (s sub : String) : Bool :=
  listIncludes sub.data s.data

/-- `String.prototype.split('\n')` on the character list: the list of
parts, always nonempty. -/
def splitNlChars : List Char → List (List Char)
  | [] => [[]]
  | c :: cs =>
    let r := splitNlChars cs
    if c = '\n' then [] :: r
    else
      match r with
      | h :: t => (c :: h) :: t
      | [] => [[c]]

/-- `buffer.split('\n')` as a list of strings. -/
def jsSplitNl (s : String) : List String :=
  (splitNlChars s.data).map String.mk

/-- Whether a string contains a newline character. -/
def containsNl (s : String) : Bool :=
  s.data.any (· = '\n')

/-- `Array.prototype.join(sep)`. -/
def jsJoin (sep : String) : List String → String
  | [] => ""
  | [a] => a
  | a :: rest => a ++ sep ++ jsJoin sep rest

/-! ## Internal (Bedrock Converse) message model

Tagged rendering of the duck-typed content blocks the source probes with
`'text' in block`, `'toolUse' in block`, `'toolResult' in block`. -/

/-- A `ToolResult` sub-block: `{text}` or `{json}`. -/
inductive ToolResultContent where
  | text : String → ToolResultContent
  | json : Json → ToolResultContent

/-- A `ToolResult` content block. -/
structure ToolResultBlock where
  toolUseId : Option String
  content : Option (List ToolResultContent)

/-- A `ToolUse` content block. `input` is an arbitrary JSON value (the
TS field is `any`); `Json.null` models an absent input. -/
structure ToolUseBlock where
  toolUseId : Option String
  name : Option String
  input : Json

/-- One internal content block. -/
inductive ContentBlock where
  | text : String → ContentBlock
  | toolUse : ToolUseBlock → ContentBlock
  | toolResult : ToolResultBlock → ContentBlock

/-- Internal message roles. -/
inductive Role where
  | user
  | assistant
deriving DecidableEq

/-- An internal (Bedrock-format) message. -/
structure Message where
  role : Role
  content : List ContentBlock

/-! ## Wire (OpenAI) request/response model -/

/-- `function` part of an OpenAI tool call. -/
structure OpenAIFunctionCall where
  name : String
  arguments : String

/-- An OpenAI tool call (its `type` field is the constant
`'function'`). -/
structure OpenAIToolCall where
  id : String
  function : OpenAIFunctionCall

/-- An OpenAI chat message. `content = none` models both `null` and an
absent field (all source reads treat them alike via truthiness). -/
structure OpenAIMessage where
  role : String
  content : Option String
  tool_calls : Option (List OpenAIToolCall)
  tool_call_id : Option String

/-- An OpenAI tool definition (its `type` is the constant
`'function'`). -/
structure OpenAITool where
  name : String
  description : String
  parameters : Json

/-- The outbound Chat Completions request. -/
structure OpenAIChatCompletionRequest where
  model : String
  messages : List OpenAIMessage
  tools : Option (List OpenAITool)
  tool_choice : Option String
  max_tokens : Option Int
  temperature : Option Rat
  top_p : Option Rat
  stream : Bool

/-! ## Message Format Converter — outbound (`messageConverter.ts`) -/

/-- A system content block (only its `text` field is read). -/
structure SystemBlock where
  text : Option String

/-- `convertSystemToOpenAI`: join truthy text blocks with `'\n'`; return
no message if the system list is absent, empty, or flattens to the
empty string. -/
def convertSystemToOpenAI (system : Option (List SystemBlock)) : Option OpenAIMessage :=
  match system with
  | none => none
  | some blocks =>
    if blocks.length = 0 then none
    else
      let text := jsJoin "\n"
        (((blocks.map (fun b => match b.text with
            | some t => if t ≠ "" then t else ""
            | none => "")).filter (fun t => t ≠ "")))
      if text = "" then none
      else some ⟨"system", some text, none, none⟩

/-- The filter `'toolResult' in block && block.toolResult` over a user
message's content. -/
def toolResultsOf (content : List ContentBlock) : List ToolResultBlock :=
  content.filterMap (fun b => match b with
    | .toolResult tr => some tr
    | _ => none)

/-- The filter `'text' in block && block.text` over a message's content
(keeps only truthy, i.e. nonempty, texts). -/
def truthyTextsOf (content : List ContentBlock) : List String :=
  content.filterMap (fun b => match b with
    | .text t => if t ≠ "" then some t else none
    | _ => none)

/-- The texts of ALL `Text` blocks of a message, empty strings
included (the raw "text content" of a message, before the source's
truthiness filtering). -/
def allTextsOf (content : List ContentBlock) : List String :=
  content.filterMap (fun b => match b with
    | .text t => some t
    | _ => none)

/-- Flatten one ToolResult's sub-blocks: truthy `text` parts as-is,
truthy `json` parts stringified, falsy parts dropped, joined with
`'\n'`; an absent content list yields `''`. -/
def toolResultContentText (tr : ToolResultBlock) : String :=
  match tr.content with
  | none => ""
  | some cs =>
    jsJoin "\n" ((cs.map (fun c => match c with
      | .text t => t
      | .json j => if jsTruthy j then jsonStringify j else "")).filter (fun t => t ≠ ""))

/-- The wire `tool` message emitted for one ToolResult block. -/
def toolResultMessage (tr : ToolResultBlock) : OpenAIMessage :=
  ⟨"tool", some (toolResultContentText tr), none,
   some (match tr.toolUseId with
     | some id => id
     | none => "")⟩

/-- Conversion of one internal user message (`msg.role === 'user'`
branch of `convertMessagesToOpenAI`): tool messages for the ToolResult
blocks first, then one user message for the truthy text blocks, or an
empty user message when neither is present. -/
def convertUserContent (content : List ContentBlock) : List OpenAIMessage :=
  let toolResults := toolResultsOf content
  let texts := truthyTextsOf content
  toolResults.map toolResultMessage ++
    (if texts.length > 0 then
      (let text := jsJoin "\n" texts
       if text ≠ "" then [⟨"user", some text, none, none⟩] else [])
     else if toolResults.length = 0 then [⟨"user", some "", none, none⟩]
     else [])

/-- The synthesized tool-call id `` `call_${Date.now()}` `` of the
assistant branch. -/
def genCallId (now : Int) : String :=
  "call_" ++ toString now

/-- The wire `arguments` string of a ToolUse block: the input itself if
it is a string, else `JSON.stringify(input || {})`. -/
def toolUseArguments (tu : ToolUseBlock) : String :=
  match tu.input with
  | .str s => s
  | j => jsonStringify (if jsTruthy j then j else .obj [])

/-- The wire tool call built from one ToolUse block. -/
def mkToolCall (now : Int) (tu : ToolUseBlock) : OpenAIToolCall :=
  ⟨(match tu.toolUseId with
    | some id => if id ≠ "" then id else genCallId now
    | none => genCallId now),
   ⟨(match tu.name with
     | some nm => nm
     | none => ""),
    toolUseArguments tu⟩⟩

/-- The ToolUse blocks of an assistant message, in order. -/
def toolUsesOf (content : List ContentBlock) : List ToolUseBlock :=
  content.filterMap (fun b => match b with
    | .toolUse tu => some tu
    | _ => none)

/-- Conversion of one internal assistant message (`msg.role ===
'assistant'` branch): truthy texts joined into `content` (or `null`),
ToolUse blocks as `tool_calls` (attached only when nonempty). -/
def convertAssistantContent (now : Int) (content : List ContentBlock) : OpenAIMessage :=
  let textParts := truthyTextsOf content
  let toolCalls := (toolUsesOf content).map (mkToolCall now)
  ⟨"assistant",
   (if textParts.length > 0 then some (jsJoin "\n" textParts) else none),
   (if toolCalls.length > 0 then some toolCalls else none),
   none⟩

/-- `convertMessagesToOpenAI`: flatten the conversion of each message,
in order. -/
def convertMessagesToOpenAI (now : Int) (messages : List Message) : List OpenAIMessage :=
  messages.foldr (fun msg acc =>
    (match msg.role with
     | .user => convertUserContent msg.content
     | .assistant => [convertAssistantContent now msg.content]) ++ acc) []

/-- A tool spec (`toolSpec` of a Bedrock tool entry); `inputSchemaJson`
models `(inputSchema as any)?.json`. -/
structure ToolSpec where
  name : Option String
  description : Option String
  inputSchemaJson : Option Json

/-- One entry of `toolConfig.tools`. -/
structure ToolEntry where
  toolSpec : Option ToolSpec

/-- The Bedrock tool configuration. -/
structure ToolConfiguration where
  tools : Option (List ToolEntry)

/-- `convertToolConfigToOpenAI`: entries with a defined spec mapped to
OpenAI tools; `none` when the tool list is absent or empty. -/
def convertToolConfigToOpenAI (toolConfig : Option ToolConfiguration) : Option (List OpenAITool) :=
  match toolConfig with
  | none => none
  | some cfg =>
    match cfg.tools with
    | none => none
    | some ts =>
      if ts.length = 0 then none
      else
        some ((ts.filterMap (fun t => t.toolSpec)).map (fun spec =>
          ⟨(match spec.name with
            | some n => n
            | none => ""),
           (match spec.description with
            | some d => d
            | none => ""),
           (match spec.inputSchemaJson with
            | some j => if jsTruthy j then j else .obj []
            | none => .obj [])⟩))

/-- The inference configuration (`{maxTokens?, temperature?, topP?}`). -/
structure InferenceConfig where
  maxTokens : Option Int
  temperature : Option Rat
  topP : Option Rat

/-- Parameters of `buildOpenAIRequest`. -/
structure BuildParams where
  modelId : String
  messages : List Message
  system : Option (List SystemBlock)
  toolConfig : Option ToolConfiguration
  inferenceConfig : Option InferenceConfig
  stream : Option Bool

/-- `buildOpenAIRequest`: assemble the complete wire request. Note the
asymmetric inference-config guards of the source: `maxTokens` is copied
under a JS truthiness test (`if (params.inferenceConfig.maxTokens)`),
while `temperature` and `topP` are copied under `!== undefined`
tests. -/
def buildOpenAIRequest (now : Int) (p : BuildParams) : OpenAIChatCompletionRequest :=
  let openaiMessages :=
    (match convertSystemToOpenAI p.system with
     | some m => [m]
     | none => []) ++ convertMessagesToOpenAI now p.messages
  let base : OpenAIChatCompletionRequest :=
    ⟨p.modelId, openaiMessages, none, none, none, none, none,
     (match p.stream with
      | some b => b
      | none => true)⟩
  let withTools :=
    match convertToolConfigToOpenAI p.toolConfig with
    | some ts =>
      if ts.length > 0 then { base with tools := some ts, tool_choice := some "auto" }
      else base
    | none => base
  match p.inferenceConfig with
  | none => withTools
  | some cfg =>
    let r1 :=
      match cfg.maxTokens with
      | some n => if n ≠ 0 then { withTools with max_tokens := some n } else withTools
      | none => withTools
    let r2 :=
      match cfg.temperature with
      | some t => { r1 with temperature := some t }
      | none => r1
    match cfg.topP with
    | some t => { r2 with top_p := some t }
    | none => r2

/-! ## Non-Streaming Response Translator -/

/-- A Bedrock output ToolUse block (all fields present on the wire). -/
structure BedrockToolUse where
  toolUseId : String
  name : String
  input : Json

/-- One content block of the translated non-streaming response. -/
inductive OutContentBlock where
  | text : String → OutContentBlock
  | toolUse : BedrockToolUse → OutContentBlock

/-- Token usage of a wire response. -/
structure WireUsage where
  prompt_tokens : Option Int
  completion_tokens : Option Int
  total_tokens : Option Int

/-- One choice of a wire response. -/
structure WireChoice where
  message : OpenAIMessage
  finish_reason : Option String

/-- A complete (non-streaming) wire response. -/
structure WireResponse where
  choices : List WireChoice
  usage : Option WireUsage

/-- The translated Bedrock `ConverseCommandOutput`. -/
structure ConverseOutput where
  role : String
  content : List OutContentBlock
  stopReason : String
  inputTokens : Int
  outputTokens : Int
  totalTokens : Int

/-- The finish-reason mapping of `convertNonStreamingResponse`
(strict string equality): `tool_calls → tool_use`,
`length → max_tokens`, anything else → `end_turn`. -/
def mapFinishReason (finishReason : Option String) : String :=
  if finishReason = some "tool_calls" then "tool_use"
  else if finishReason = some "length" then "max_tokens"
  else "end_turn"

/-- `JSON.parse(tc.function.arguments)` with the `{raw: ...}` fallback
on parse failure. -/
def parseToolArguments (arguments : String) : Json :=
  match jsonParse arguments with
  | some j => j
  | none => .obj [("raw", .str arguments)]

/-- `convertNonStreamingResponse`: translate one complete wire response;
`none` models the thrown `'No choices in OpenAI response'` error. -/
def convertNonStreamingResponse (data : WireResponse) : Option ConverseOutput :=
  match data.choices.head? with
  | none => none
  | some choice =>
    let message := choice.message
    let textBlocks : List OutContentBlock :=
      match message.content with
      | some s => if s ≠ "" then [.text s] else []
      | none => []
    let toolBlocks : List OutContentBlock :=
      match message.tool_calls with
      | some tcs =>
        tcs.map (fun tc =>
          .toolUse ⟨tc.id, tc.function.name, parseToolArguments tc.function.arguments⟩)
      | none => []
    some ⟨"assistant", textBlocks ++ toolBlocks,
      mapFinishReason choice.finish_reason,
      (match data.usage with
       | some u => match u.prompt_tokens with
         | some n => n
         | none => 0
       | none => 0),
      (match data.usage with
       | some u => match u.completion_tokens with
         | some n => n
         | none => 0
       | none => 0),
      (match data.usage with
       | some u => match u.total_tokens with
         | some n => n
         | none => 0
       | none => 0)⟩

/-- The wire response a caller would see for a single wire message with
no finish reason and no usage (the round-trip construction of the
testable property in §8 of the specification). -/
def responseOf (w : OpenAIMessage) : WireResponse :=
  ⟨[⟨w, none⟩], none⟩

/-! ## Streaming Response Translator (`createBedrockStreamFromOpenAI`)

The source builds a pull-based async iterator whose mutable closure
state is made explicit here. Because the iterator simply drains its
`pendingEvents` queue between reads, the visible event sequence equals
the flat concatenation, in processing order, of the events pushed while
decoding — which is what this model computes. -/

/-- One tool-call accumulator entry (`{id, name, arguments}`). `id` and
`name` hold the raw JSON values taken from the deltas. -/
structure ToolAcc where
  id : Json
  name : Json
  arguments : String

/-- The mutable closure state of one streaming translator session. -/
structure StreamState where
  buffer : String
  contentBlockIndex : Int
  toolCallAccumulator : List (Json × ToolAcc)
  messageStartSent : Bool
  currentContentBlockOpen : Bool
  inputTokens : Json
  outputTokens : Json
  done : Bool

/-- The state at session creation. -/
def initialStreamState : StreamState :=
  ⟨"", 0, [], false, false, .num 0, .num 0, false⟩

/-- The `start` payload of a `contentBlockStart` event. -/
inductive BlockStart where
  | text : BlockStart
  | toolUse : Json → Json → BlockStart

/-- The `delta` payload of a `contentBlockDelta` event. -/
inductive BlockDelta where
  | text : Json → BlockDelta
  | toolUseInput : String → BlockDelta

/-- One Bedrock-format stream event emitted by the translator. -/
inductive StreamEvent where
  | messageStart : String → StreamEvent
  | contentBlockStart : BlockStart → Int → StreamEvent
  | contentBlockDelta : BlockDelta → Int → StreamEvent
  | contentBlockStop : Int → StreamEvent
  | messageStop : String → StreamEvent
  | metadata : Json → Json → StreamEvent

/-- `Map.prototype.get` on the accumulator (SameValueZero keys modelled
by structural equality). -/
def accGet (m : List (Json × ToolAcc)) (k : Json) : Option ToolAcc :=
  match m with
  | [] => none
  | (k2, v) :: rest => if Json.beq k2 k then some v else accGet rest k

/-- `Map.prototype.set`: replace the value of an existing key in place,
else append a new entry (insertion order preserved). -/
def accSet (m : List (Json × ToolAcc)) (k : Json) (v : ToolAcc) : List (Json × ToolAcc) :=
  match m with
  | [] => [(k, v)]
  | (k2, v2) :: rest =>
    if Json.beq k2 k then (k2, v) :: rest else (k2, v2) :: accSet rest k v

/-- `parsed.choices?.[0]`: optional chaining on `choices`, then index 0
(array element, first character of a string, or property `"0"` of an
object). -/
def choiceOf (parsed : Json) : Option Json :=
  match getField? parsed "choices" with
  | none => none
  | some c =>
    match c with
    | .null => none
    | .arr xs => xs.head?
    | .str s =>
      match s.data with
      | [] => none
      | ch :: _ => some (.str (String.mk [ch]))
    | .obj fs => lookupField fs "0"
    | _ => none

/-- The `x || 0` coalescing applied to the usage fields. -/
def jsOrZero (v : Option Json) : Json :=
  match v with
  | some j => if jsTruthy j then j else .num 0
  | none => .num 0

/-- Usage tracking (source lines `if (parsed.usage) { ... }`): overwrite
the running token counters (`x || 0` coalescing). -/
def applyUsage (s : StreamState) (parsed : Json) : StreamState :=
  match getField? parsed "usage" with
  | some u =>
    if jsTruthy u then
      { s with
        inputTokens := jsOrZero (getField? u "prompt_tokens"),
        outputTokens := jsOrZero (getField? u "completion_tokens") }
    else s
  | none => s

/-- Emit `messageStart` once per session, on the first delta. -/
def applyMessageStart (s : StreamState) : StreamState × List StreamEvent :=
  if s.messageStartSent then (s, [])
  else ({ s with messageStartSent := true }, [.messageStart "assistant"])

/-- Text-content handling: `delta.content !== undefined && !== null`
opens a text block at the current index if none is open, then emits a
text delta at that index. -/
def applyContent (s : StreamState) (delta : Json) : StreamState × List StreamEvent :=
  match getField? delta "content" with
  | none => (s, [])
  | some c =>
    if isNullJson c then (s, [])
    else if s.currentContentBlockOpen then
      (s, [.contentBlockDelta (.text c) s.contentBlockIndex])
    else
      ({ s with currentContentBlockOpen := true },
       [.contentBlockStart .text s.contentBlockIndex,
        .contentBlockDelta (.text c) s.contentBlockIndex])

/-- Close the open text block, if any: a `contentBlockStop` at the
current index, which is then advanced. -/
def closeTextBlock (s : StreamState) : StreamState × List StreamEvent :=
  if s.currentContentBlockOpen then
    ({ s with contentBlockIndex := s.contentBlockIndex + 1,
              currentContentBlockOpen := false },
     [.contentBlockStop s.contentBlockIndex])
  else (s, [])

/-- `tc.function?.name` / `tc.function?.arguments`: optional chaining
through the `function` property. -/
def toolCallFunctionField (tc : Json) (key : String) : Option Json :=
  match getField? tc "function" with
  | none => none
  | some f => if isNullJson f then none else getField? f key

/-- Processing of one entry of `delta.tool_calls` (accumulator create /
update on the `Map`, which is all the loop body mutates; no events are
emitted here). -/
def accumulateToolCall (now : Int) (m0 : List (Json × ToolAcc)) (tc : Json) :
    List (Json × ToolAcc) :=
  let tcIndex : Json :=
    match getField? tc "index" with
    | some v => if isNullJson v then .num 0 else v
    | none => .num 0
  let m1 :=
    if (accGet m0 tcIndex).isNone then
      accSet m0 tcIndex
        ⟨(match getField? tc "id" with
          | some v => if jsTruthy v then v else
              .str (genCallId now ++ "_" ++ jsToString tcIndex)
          | none => .str (genCallId now ++ "_" ++ jsToString tcIndex)),
         (match toolCallFunctionField tc "name" with
          | some v => if jsTruthy v then v else .str ""
          | none => .str ""),
         ""⟩
    else m0
  match accGet m1 tcIndex with
  | none => m1
  | some acc =>
    let acc1 :=
      match getField? tc "id" with
      | some v => if jsTruthy v then { acc with id := v } else acc
      | none => acc
    let acc2 :=
      match toolCallFunctionField tc "name" with
      | some v => if jsTruthy v then { acc1 with name := v } else acc1
      | none => acc1
    let acc3 :=
      match toolCallFunctionField tc "arguments" with
      | some v =>
        if jsTruthy v then { acc2 with arguments := acc2.arguments ++ jsToString v }
        else acc2
      | none => acc2
    accSet m1 tcIndex acc3

/-- The values `for (const tc of v)` iterates over: array elements, or
the characters of a string; `none` models the `TypeError` thrown for a
truthy non-iterable (caught by the surrounding `try`). -/
def jsIterElems : Json → Option (List Json)
  | .arr xs => some xs
  | .str s => some (s.data.map (fun c => .str (String.mk [c])))
  | _ => none

/-- Tool-call handling of one parsed chunk. The `Bool` is false when
iterating `delta.tool_calls` threw (truthy non-iterable): the events
pushed so far survive but the rest of the line is skipped. -/
def applyToolCalls (now : Int) (s : StreamState) (delta : Json) :
    StreamState × List StreamEvent × Bool :=
  match getField? delta "tool_calls" with
  | none => (s, [], true)
  | some tc =>
    if jsTruthy tc then
      let (s1, evs) := closeTextBlock s
      match jsIterElems tc with
      | some items =>
        ({ s1 with toolCallAccumulator :=
            items.foldl (accumulateToolCall now) s1.toolCallAccumulator },
         evs, true)
      | none => (s1, evs, false)
    else (s, [], true)

/-- The events of the tool-call flush loop: for each accumulated entry,
in insertion order, a start/optional-argument-delta/stop triple at the
next freshly assigned index (`contentBlockIndex++` per entry; the
argument delta appears only when the accumulated text is truthy). -/
def flushToolCallEvents (idx : Int) : List (Json × ToolAcc) → List StreamEvent
  | [] => []
  | (_, tool) :: rest =>
    [.contentBlockStart (.toolUse tool.id tool.name) idx] ++
    (if tool.arguments ≠ "" then [.contentBlockDelta (.toolUseInput tool.arguments) idx]
     else []) ++
    [.contentBlockStop idx] ++
    flushToolCallEvents (idx + 1) rest

/-- Flush the accumulated tool calls (the `for (const [idx, tool] of
toolCallAccumulator)` loop followed by `toolCallAccumulator.clear()`):
the loop only reads and advances `contentBlockIndex`, so the resulting
state advances the index by one per entry and clears the map. -/
def flushToolCalls (s : StreamState) : StreamState × List StreamEvent :=
  ({ s with
      contentBlockIndex := s.contentBlockIndex + s.toolCallAccumulator.length,
      toolCallAccumulator := [] },
   flushToolCallEvents s.contentBlockIndex s.toolCallAccumulator)

/-- The finish-reason mapping of the streaming translator, applied to
the raw JSON value of `choice.finish_reason` (`===` is strict, so only
the exact strings match; any other truthy value falls through to
`end_turn`). -/
def mapFinishReasonJson (fr : Json) : String :=
  match fr with
  | .str reason =>
    if reason = "tool_calls" then "tool_use"
    else if reason = "length" then "max_tokens"
    else "end_turn"
  | _ => "end_turn"

/-- Finish-reason handling: close any open text block, flush the
accumulated tool calls, map the finish reason (strict string
comparisons), emit `messageStop` and `metadata`, and mark the session
terminal. -/
def applyFinish (s : StreamState) (choice : Json) : StreamState × List StreamEvent :=
  match getField? choice "finish_reason" with
  | none => (s, [])
  | some fr =>
    if jsTruthy fr then
      let (s1, e1) := closeTextBlock s
      let (s2, e2) := flushToolCalls s1
      let stopReason := mapFinishReasonJson fr
      ({ s2 with done := true },
       e1 ++ e2 ++ [.messageStop stopReason, .metadata s2.inputTokens s2.outputTokens])
    else (s, [])

/-- Processing of one successfully parsed SSE data payload
(source lines 252–382). -/
def processParsed (now : Int) (s : StreamState) (parsed : Json) :
    StreamState × List StreamEvent :=
  match choiceOf parsed with
  | none => (s, [])
  | some choice =>
    if jsTruthy choice then
      let s1 := applyUsage s parsed
      match getField? choice "delta" with
      | none => (s1, [])
      | some delta =>
        if jsTruthy delta then
          let (s2, e1) := applyMessageStart s1
          let (s3, e2) := applyContent s2 delta
          match applyToolCalls now s3 delta with
          | (s4, e3, false) => (s4, e1 ++ e2 ++ e3)
          | (s4, e3, true) =>
            let (s5, e4) := applyFinish s4 choice
            (s5, e1 ++ e2 ++ e3 ++ e4)
        else (s1, [])
    else (s, [])

/-- Processing of one complete line of the SSE body: trim, require the
`'data: '` prefix, ignore `'[DONE]'`, parse the JSON payload (malformed
lines are silently skipped). -/
def processLine (now : Int) (s : StreamState) (line : String) :
    StreamState × List StreamEvent :=
  let trimmed := jsTrim line
  if trimmed = "" then (s, [])
  else if ¬ jsStartsWith trimmed "data: " then (s, [])
  else
    let data := jsSlice trimmed 6
    if data = "[DONE]" then (s, [])
    else
      match jsonParse data with
      | none => (s, [])
      | some parsed => processParsed now s parsed

/-- Process the complete lines of one read, in order. Note the source
keeps processing the remaining lines of a chunk even after a
finish-reason set `done = true`. -/
def processLines (now : Int) : StreamState → List String → StreamState × List StreamEvent
  | s, [] => (s, [])
  | s, l :: ls =>
    let (s1, e1) := processLine now s l
    let (s2, e2) := processLines now s1 ls
    (s2, e1 ++ e2)

/-- Processing of one decoded chunk: append to the carry-over buffer,
split on `'\n'`, keep the final fragment as the new buffer, and process
the complete lines. -/
def processChunk (now : Int) (s : StreamState) (chunk : String) :
    StreamState × List StreamEvent :=
  let parts := jsSplitNl (s.buffer ++ chunk)
  let lines := parts.dropLast
  let newBuffer :=
    match parts.getLast? with
    | some b => b
    | none => ""
  processLines now { s with buffer := newBuffer } lines

/-- The end-of-stream path (`readDone`, source lines 177–238): close any
open content block — note the source closes it at `contentBlockIndex -
1` — flush the remaining tool calls, then emit `messageStop` with
`end_turn` and the final `metadata`. The carry-over buffer is
discarded unread. -/
def finishStream (s : StreamState) : List StreamEvent :=
  let e1 :=
    if s.currentContentBlockOpen then [StreamEvent.contentBlockStop (s.contentBlockIndex - 1)]
    else []
  let (s2, e2) := flushToolCalls { s with currentContentBlockOpen := false }
  e1 ++ e2 ++ [.messageStop "end_turn", .metadata s2.inputTokens s2.outputTokens]

/-- Drive a session over the byte-stream chunks: once `done` is set by a
finish reason, no further read occurs; when the chunks are exhausted
without a finish reason, the end-of-stream path runs. -/
def runChunks (now : Int) : StreamState → List String → List StreamEvent
  | s, [] => if s.done then [] else finishStream s
  | s, c :: cs =>
    if s.done then []
    else
      let (s1, evs) := processChunk now s c
      evs ++ runChunks now s1 cs

/-- The complete event sequence one streaming-translator session
delivers for a given sequence of decoded chunks. -/
def createBedrockStreamFromOpenAI (now : Int) (chunks : List String) : List StreamEvent :=
  runChunks now initialStreamState chunks

/-! ## Request Dispatcher retry logic (`handleError` /
`handleStreamError`; both bodies are identical) -/

/-- `MAX_RETRIES` of `OpenAIConverseService`. -/
def MAX_RETRIES : Nat := 5

/-- `RETRY_DELAY` of `OpenAIConverseService`, in milliseconds. -/
def RETRY_DELAY : Nat := 3000

/-- The outcome of the error handler: re-issue the same request after a
fixed delay, or rethrow the error unchanged. -/
inductive RetryAction (α : Type) where
  | retryAfter : Nat → α → RetryAction α
  | propagate : RetryAction α

/-- `handleError` / `handleStreamError`: rethrow once the retry budget
is exhausted; otherwise retry after `RETRY_DELAY` exactly when the
error message contains `"429"` or `"5"` (`error.message?.includes`,
with an absent message never matching); otherwise rethrow. The retried
request carries the identical `props`. -/
def handleError {α : Type} (errorMessage : Option String) (props : α) (retries : Nat) :
    RetryAction α :=
  if MAX_RETRIES ≤ retries then .propagate
  else if (match errorMessage with
           | some m => jsIncludes m "429" || jsIncludes m "5"
           | none => false) then
    .retryAfter RETRY_DELAY props
  else .propagate

/-- The configuration-error message thrown by `getConfig` when `apiKey`
or `baseUrl` is missing. -/
def configErrorMessage : String :=
  "OpenAI-compatible API is not configured. Please set API key and base URL in settings."

/-- The stop reasons carried by the `messageStop` events of an event
list, in order. -/
def messageStopsOf (evs : List StreamEvent) : List String :=
  evs.filterMap (fun e => match e with
    | .messageStop r => some r
    | _ => none)

/-! ## Helper lemmas -/

theorem flushToolCallEvents_no_messageStop (acc : List (Json × ToolAcc)) :
    ∀ idx, messageStopsOf (flushToolCallEvents idx acc) = [] := by
  induction acc with
  | nil => intro idx; rfl
  | cons hd tl ih =>
    intro idx
    obtain ⟨k, tool⟩ := hd
    simp only [flushToolCallEvents, messageStopsOf, List.filterMap_append]
    by_cases h : tool.arguments ≠ "" <;>
      simp [h, messageStopsOf] at ih ⊢ <;> exact ih (idx + 1)

theorem messageStopsOf_finishStream (s : StreamState) :
    messageStopsOf (finishStream s) = ["end_turn"] := by
  unfold finishStream flushToolCalls
  by_cases h : s.currentContentBlockOpen <;>
    simp [h, messageStopsOf, List.filterMap_append] <;>
    simpa [messageStopsOf] using
      flushToolCallEvents_no_messageStop s.toolCallAccumulator s.contentBlockIndex

theorem getLast?_finishStream (s : StreamState) :
    (finishStream s).getLast? =
      some (StreamEvent.metadata s.inputTokens s.outputTokens) := by
  have key : ∀ (A : List StreamEvent) (m md : StreamEvent),
      (A ++ [m, md]).getLast? = some md := by
    intro A m md
    rw [List.getLast?_append_cons]
    rfl
  unfold finishStream flushToolCalls
  by_cases h : s.currentContentBlockOpen
  · simp only [h, if_pos]
    exact key _ _ _
  · simp only [h, if_neg, Bool.false_eq_true, List.nil_append]
    exact key _ _ _

theorem counters_applyMessageStart (s : StreamState) :
    (applyMessageStart s).1.inputTokens = s.inputTokens ∧
    (applyMessageStart s).1.outputTokens = s.outputTokens := by
  unfold applyMessageStart
  by_cases h : s.messageStartSent <;> simp [h]

theorem counters_applyContent (s : StreamState) (delta : Json) :
    (applyContent s delta).1.inputTokens = s.inputTokens ∧
    (applyContent s delta).1.outputTokens = s.outputTokens := by
  unfold applyContent
  cases getField? delta "content" with
  | none => exact ⟨rfl, rfl⟩
  | some c =>
    by_cases h1 : isNullJson c <;> by_cases h2 : s.currentContentBlockOpen <;>
      simp [h1, h2]

theorem counters_closeTextBlock (s : StreamState) :
    (closeTextBlock s).1.inputTokens = s.inputTokens ∧
    (closeTextBlock s).1.outputTokens = s.outputTokens := by
  unfold closeTextBlock
  by_cases h : s.currentContentBlockOpen <;> simp [h]

theorem counters_applyToolCalls (now : Int) (s : StreamState) (delta : Json) :
    (applyToolCalls now s delta).1.inputTokens = s.inputTokens ∧
    (applyToolCalls now s delta).1.outputTokens = s.outputTokens := by
  unfold applyToolCalls
  cases getField? delta "tool_calls" with
  | none => exact ⟨rfl, rfl⟩
  | some tc =>
    by_cases ht : jsTruthy tc
    · simp only [ht, if_pos]
      have hc := counters_closeTextBlock s
      cases hcb : closeTextBlock s with
      | mk s1 evs =>
        rw [hcb] at hc
        cases hit : jsIterElems tc with
        | none => simpa using hc
        | some items => simpa using hc
    · simp [ht]

theorem counters_flushToolCalls (s : StreamState) :
    (flushToolCalls s).1.inputTokens = s.inputTokens ∧
    (flushToolCalls s).1.outputTokens = s.outputTokens := by
  unfold flushToolCalls
  exact ⟨rfl, rfl⟩

theorem counters_applyFinish (s : StreamState) (choice : Json) :
    (applyFinish s choice).1.inputTokens = s.inputTokens ∧
    (applyFinish s choice).1.outputTokens = s.outputTokens := by
  unfold applyFinish
  cases getField? choice "finish_reason" with
  | none => exact ⟨rfl, rfl⟩
  | some fr =>
    by_cases ht : jsTruthy fr
    · simp only [ht, if_pos]
      have hc := counters_closeTextBlock s
      cases hcb : closeTextBlock s with
      | mk s1 e1 =>
        rw [hcb] at hc
        have hfl := counters_flushToolCalls s1
        cases hfb : flushToolCalls s1 with
        | mk s2 e2 =>
          rw [hfb] at hfl
          simp only []
          exact ⟨hfl.1.trans hc.1, hfl.2.trans hc.2⟩
    · simp [ht]

theorem counters_processParsed (now : Int) (s : StreamState) (parsed choice : Json)
    (hc : choiceOf parsed = some choice) (ht : jsTruthy choice = true) :
    (processParsed now s parsed).1.inputTokens = (applyUsage s parsed).inputTokens ∧
    (processParsed now s parsed).1.outputTokens = (applyUsage s parsed).outputTokens := by
  unfold processParsed
  rw [hc]
  simp only [ht, if_pos]
  cases hd : getField? choice "delta" with
  | none => exact ⟨rfl, rfl⟩
  | some delta =>
    by_cases hdt : jsTruthy delta
    · simp only [hdt, if_pos]
      have hms := counters_applyMessageStart (applyUsage s parsed)
      cases h1 : applyMessageStart (applyUsage s parsed) with
      | mk s2 e1 =>
        rw [h1] at hms
        have hco := counters_applyContent s2 delta
        cases h2 : applyContent s2 delta with
        | mk s3 e2 =>
          rw [h2] at hco
          have htc := counters_applyToolCalls now s3 delta
          cases h3 : applyToolCalls now s3 delta with
          | mk s4 rest =>
            rw [h3] at htc
            cases rest with
            | mk e3 ok =>
              cases ok with
              | false =>
                simp only []
                exact ⟨htc.1.trans (hco.1.trans hms.1),
                       htc.2.trans (hco.2.trans hms.2)⟩
              | true =>
                have hfin := counters_applyFinish s4 choice
                cases h4 : applyFinish s4 choice with
                | mk s5 e4 =>
                  rw [h4] at hfin
                  simp only [h4]
                  exact ⟨hfin.1.trans (htc.1.trans (hco.1.trans hms.1)),
                         hfin.2.trans (htc.2.trans (hco.2.trans hms.2))⟩
    · simp [hdt]

theorem splitNlChars_of_no_nl (cs : List Char) (h : cs.any (· = '\n') = false) :
    splitNlChars cs = [cs] := by
  induction cs with
  | nil => rfl
  | cons c t ih =>
    rw [List.any_cons, Bool.or_eq_false_iff] at h
    have hc : ¬ c = '\n' := by simpa using h.1
    simp only [splitNlChars]
    rw [ih h.2]
    simp [hc]

theorem data_append (a b : String) : (a ++ b).data = a.data ++ b.data := by
  cases a
  cases b
  rfl

theorem mk_data (s : String) : String.mk s.data = s := by
  cases s
  rfl

theorem append_ne_empty_of_left (a b : String) (h : a ≠ "") : a ++ b ≠ "" := by
  intro hab
  apply h
  cases a with
  | mk da =>
    cases b with
    | mk db =>
      have : da ++ db = [] := congrArg String.data hab
      have hda : da = [] := List.append_eq_nil.mp this |>.1
      rw [hda]

theorem jsJoin_ne_empty (sep : String) (t : String) (ts : List String) (h : t ≠ "") :
    jsJoin sep (t :: ts) ≠ "" := by
  cases ts with
  | nil => exact h
  | cons u us =>
    show t ++ sep ++ jsJoin sep (u :: us) ≠ ""
    exact append_ne_empty_of_left _ _ (append_ne_empty_of_left _ _ h)

theorem mem_truthyTextsOf (content : List ContentBlock) (t : String) :
    t ∈ truthyTextsOf content → ContentBlock.text t ∈ content ∧ t ≠ "" := by
  intro h
  unfold truthyTextsOf at h
  rw [List.mem_filterMap] at h
  obtain ⟨b, hb, hf⟩ := h
  cases b with
  | text u =>
    have hf2 : (if u ≠ "" then some u else none) = some t := hf
    by_cases hu : u = ""
    · subst hu
      simp at hf2
    · rw [if_pos hu] at hf2
      cases hf2
      exact ⟨hb, hu⟩
  | toolUse tu => simp at hf
  | toolResult tr => simp at hf

theorem mem_toolUsesOf (content : List ContentBlock) (tu : ToolUseBlock) :
    tu ∈ toolUsesOf content → ContentBlock.toolUse tu ∈ content := by
  intro h
  unfold toolUsesOf at h
  rw [List.mem_filterMap] at h
  obtain ⟨b, hb, hf⟩ := h
  cases b with
  | text u => simp at hf
  | toolUse tu2 =>
    simp only [Option.some.injEq] at hf
    cases hf
    exact hb
  | toolResult tr => simp at hf

/-! ## Claim theorems -/

/-- C4: for every wire finish reason observed by either the
non-streaming translator or the streaming translator, the mapping to
the internal stop reason is exactly `tool_calls → tool_use`,
`length → max_tokens`, and anything else (including `stop` and
absence) → `end_turn`; the mapping is case-sensitive (only the exact
strings match), and `convertNonStreamingResponse` stamps exactly this
mapping into `stopReason`. -/
theorem finish_reason_mapping_exact :
    mapFinishReason (some "tool_calls") = "tool_use" ∧
    mapFinishReason (some "length") = "max_tokens" ∧
    (∀ fr : Option String, fr ≠ some "tool_calls" → fr ≠ some "length" →
      mapFinishReason fr = "end_turn") ∧
    mapFinishReasonJson (.str "tool_calls") = "tool_use" ∧
    mapFinishReasonJson (.str "length") = "max_tokens" ∧
    (∀ fr : Json, (∀ r : String, fr = .str r → r ≠ "tool_calls" ∧ r ≠ "length") →
      mapFinishReasonJson fr = "end_turn") ∧
    (∀ (data : WireResponse) (choice : WireChoice) (out : ConverseOutput),
      data.choices.head? = some choice →
      convertNonStreamingResponse data = some out →
      out.stopReason = mapFinishReason choice.finish_reason) := by
  refine ⟨rfl, rfl, ?_, rfl, rfl, ?_, ?_⟩
  · intro fr h1 h2
    unfold mapFinishReason
    rw [if_neg h1, if_neg h2]
  · intro fr h
    cases fr with
    | str r =>
      have hr := h r rfl
      show (if r = "tool_calls" then "tool_use"
            else if r = "length" then "max_tokens" else "end_turn") = "end_turn"
      rw [if_neg hr.1, if_neg hr.2]
    | null => rfl
    | bool b => rfl
    | num n => rfl
    | arr xs => rfl
    | obj fs => rfl
  · intro data choice out h1 h2
    unfold convertNonStreamingResponse at h2
    rw [h1] at h2
    cases h2
    rfl

/-- Witness for C4 at concrete inputs: `stop`, absence, and a
case-variant all map to `end_turn`. -/
theorem finish_reason_mapping_exact_witness :
    mapFinishReason (some "stop") = "end_turn" ∧
    mapFinishReason none = "end_turn" ∧
    mapFinishReason (some "Tool_calls") = "end_turn" ∧
    mapFinishReasonJson (.str "stop") = "end_turn" := by
  refine ⟨?_, ?_, ?_, ?_⟩
  · exact finish_reason_mapping_exact.2.2.1 (some "stop") (by decide) (by decide)
  · exact finish_reason_mapping_exact.2.2.1 none (by decide) (by decide)
  · exact finish_reason_mapping_exact.2.2.1 (some "Tool_calls") (by decide) (by decide)
  · exact finish_reason_mapping_exact.2.2.2.2.2.1 (.str "stop")
      (by intro r hr; cases hr; exact ⟨by decide, by decide⟩)

/-- C7: the dispatcher retries (after the fixed 3000 ms delay, with the
identical request) exactly when the error message contains `"429"` or
`"5"` and fewer than `MAX_RETRIES = 5` retries have been made; every
other error — and any error once the budget is exhausted — propagates,
and the configuration-error message (which contains neither substring)
is never retried. -/
theorem retry_heuristic_iff (α : Type) (props : α) (msg : Option String) (retries : Nat) :
    (handleError msg props retries = .retryAfter RETRY_DELAY props ↔
      retries < 5 ∧ ∃ m, msg = some m ∧
        (jsIncludes m "429" = true ∨ jsIncludes m "5" = true)) ∧
    RETRY_DELAY = 3000 ∧
    handleError (some configErrorMessage) props retries = .propagate := by
  refine ⟨⟨?_, ?_⟩, rfl, ?_⟩
  · intro h
    unfold handleError at h
    by_cases hr : MAX_RETRIES ≤ retries
    · rw [if_pos hr] at h
      cases h
    · rw [if_neg hr] at h
      have hlt : retries < 5 := by
        unfold MAX_RETRIES at hr
        omega
      cases msg with
      | none => simp at h
      | some m =>
        by_cases hm : (jsIncludes m "429" || jsIncludes m "5") = true
        · exact ⟨hlt, m, rfl, by simpa using hm⟩
        · simp only [hm, if_neg, Bool.false_eq_true] at h
          cases h
  · rintro ⟨hlt, m, rfl, hm⟩
    unfold handleError
    rw [if_neg (by unfold MAX_RETRIES; omega)]
    have : (jsIncludes m "429" || jsIncludes m "5") = true := by
      rcases hm with h1 | h1 <;> simp [h1]
    rw [if_pos this]
  · unfold handleError
    by_cases hr : MAX_RETRIES ≤ retries
    · rw [if_pos hr]
    · rw [if_neg hr]
      have h429 : jsIncludes configErrorMessage "429" = false := by decide
      have h5 : jsIncludes configErrorMessage "5" = false := by decide
      simp [h429, h5]

/-- C8 counterexample: a defined `maxTokens` of `0` is NOT copied to
`max_tokens` — the source guards it with a JS truthiness test, so the
wire field is omitted — contradicting the claim that a defined value of
0 for any of the three fields is copied. -/
theorem inference_maxTokens_zero_omitted :
    (buildOpenAIRequest 0
      ⟨"m", [], none, none, some ⟨some 0, none, none⟩, some false⟩).max_tokens = none ∧
    (buildOpenAIRequest 0
      ⟨"m", [], none, none, some ⟨some 0, none, none⟩, some false⟩).temperature = none ∧
    some (0 : Int) ≠ (none : Option Int) := by
  refine ⟨rfl, rfl, ?_⟩
  intro h
  cases h

/-- C8 amended: the outbound request builder copies `temperature` and
`topP` exactly when defined (including a defined `0`), but copies
`maxTokens` only when it is defined AND nonzero (JS truthiness); an
absent field is always omitted, never defaulted. -/
theorem inference_config_copy (now : Int) (p : BuildParams) (cfg : InferenceConfig)
    (h : p.inferenceConfig = some cfg) :
    (buildOpenAIRequest now p).max_tokens =
      (match cfg.maxTokens with
       | some n => if n ≠ 0 then some n else none
       | none => none) ∧
    (buildOpenAIRequest now p).temperature = cfg.temperature ∧
    (buildOpenAIRequest now p).top_p = cfg.topP := by
  unfold buildOpenAIRequest
  rw [h]
  rcases cfg with ⟨mt, tp, pp⟩
  cases htc : convertToolConfigToOpenAI p.toolConfig with
  | none =>
    cases mt with
    | none => cases tp <;> cases pp <;> simp
    | some n =>
      by_cases hn : n = 0
      · subst hn
        cases tp <;> cases pp <;> simp
      · cases tp <;> cases pp <;> simp [hn]
  | some ts =>
    by_cases hl : ts.length > 0
    · simp only [hl, if_pos]
      cases mt with
      | none => cases tp <;> cases pp <;> simp
      | some n =>
        by_cases hn : n = 0
        · subst hn
          cases tp <;> cases pp <;> simp
        · cases tp <;> cases pp <;> simp [hn]
    · simp only [hl, if_neg, Bool.false_eq_true]
      cases mt with
      | none => cases tp <;> cases pp <;> simp
      | some n =>
        by_cases hn : n = 0
        · subst hn
          cases tp <;> cases pp <;> simp
        · cases tp <;> cases pp <;> simp [hn]

/-- Witness for C8 at a concrete input: `maxTokens = 0` is omitted
while `temperature = 0` and `topP = 0` are copied. -/
theorem inference_config_copy_witness :
    (buildOpenAIRequest 0
      ⟨"m", [], none, none, some ⟨some 0, some 0, some 0⟩, some false⟩).max_tokens = none ∧
    (buildOpenAIRequest 0
      ⟨"m", [], none, none, some ⟨some 0, some 0, some 0⟩, some false⟩).temperature = some 0 ∧
    (buildOpenAIRequest 0
      ⟨"m", [], none, none, some ⟨some 0, some 0, some 0⟩, some false⟩).top_p = some 0 :=
  inference_config_copy 0
    ⟨"m", [], none, none, some ⟨some 0, some 0, some 0⟩, some false⟩
    ⟨some 0, some 0, some 0⟩ rfl

/-- C1 (bug evidence): when the byte stream ends while a text block is
open (no finish reason was seen), the source closes the block with
`contentBlockIndex - 1`. The block was opened at index 0, so the
emitted `ContentBlockStop` carries index `-1`: the stop does not match
the opened index, no stop for index 0 is ever emitted, and the index
sequence is not the claimed `0, 1, 2, …`. -/
theorem stream_end_open_block_stop_index_bug :
    createBedrockStreamFromOpenAI 0
      ["data: \x7b\"choices\":[\x7b\"delta\":\x7b\"content\":\"Hi\"\x7d\x7d]\x7d\n"] =
      [.messageStart "assistant",
       .contentBlockStart .text 0,
       .contentBlockDelta (.text (.str "Hi")) 0,
       .contentBlockStop (-1),
       .messageStop "end_turn",
       .metadata (.num 0) (.num 0)] := by
  rfl

/-- C2 (bug evidence): two `data:` lines carrying a finish reason inside
one chunk each emit a `MessageStop` and a `Metadata` — the line loop
keeps processing after `done = true` — so the session emits two
`MessageStop` and two `Metadata` events instead of exactly one. -/
theorem double_finish_reason_double_stop_bug :
    createBedrockStreamFromOpenAI 0
      [String.append
        "data: \x7b\"choices\":[\x7b\"delta\":\x7b\x7d,\"finish_reason\":\"stop\"\x7d]\x7d\n"
        "data: \x7b\"choices\":[\x7b\"delta\":\x7b\x7d,\"finish_reason\":\"stop\"\x7d]\x7d\n"] =
      [.messageStart "assistant",
       .messageStop "end_turn",
       .metadata (.num 0) (.num 0),
       .messageStop "end_turn",
       .metadata (.num 0) (.num 0)] ∧
    messageStopsOf
      (createBedrockStreamFromOpenAI 0
        [String.append
          "data: \x7b\"choices\":[\x7b\"delta\":\x7b\x7d,\"finish_reason\":\"stop\"\x7d]\x7d\n"
          "data: \x7b\"choices\":[\x7b\"delta\":\x7b\x7d,\"finish_reason\":\"stop\"\x7d]\x7d\n"])
      = ["end_turn", "end_turn"] := by
  exact ⟨rfl, rfl⟩

/-- C3 counterexample: a chunk whose `choices` array is empty is skipped
BEFORE the usage object is read (the source extracts the first choice
first, the opposite of the claimed ordering), so its
`prompt_tokens = 7` / `completion_tokens = 3` never reach the counters
and the final `Metadata` carries `0/0`, not the chunk's values. -/
theorem usage_on_choiceless_chunk_dropped :
    createBedrockStreamFromOpenAI 0
      ["data: \x7b\"choices\":[],\"usage\":\x7b\"prompt_tokens\":7,\"completion_tokens\":3\x7d\x7d\n"] =
      [.messageStop "end_turn", .metadata (.num 0) (.num 0)] ∧
    Json.num 0 ≠ Json.num 7 := by
  refine ⟨rfl, ?_⟩
  intro h
  injection h with h1
  cases h1

/-- C3 amended: the running token counters are overwritten with a
chunk's `prompt_tokens`/`completion_tokens` (with `|| 0` coalescing)
only when the chunk's first choice is present and truthy — the source
extracts the first choice and skips the chunk BEFORE reading `usage`,
so a chunk with an empty or absent `choices` array is skipped entirely,
usage included — and the end-of-stream `Metadata` event always carries
the counters last captured this way. -/
theorem usage_overwrite_requires_choice (now : Int) (s : StreamState)
    (parsed choice u : Json)
    (hc : choiceOf parsed = some choice) (ht : jsTruthy choice = true)
    (hu : getField? parsed "usage" = some u) (hut : jsTruthy u = true) :
    (processParsed now s parsed).1.inputTokens = jsOrZero (getField? u "prompt_tokens") ∧
    (processParsed now s parsed).1.outputTokens = jsOrZero (getField? u "completion_tokens") ∧
    (∀ q : Json, optTruthy (choiceOf q) = false → processParsed now s q = (s, [])) ∧
    (∀ t : StreamState, (finishStream t).getLast? =
      some (StreamEvent.metadata t.inputTokens t.outputTokens)) := by
  have hcp := counters_processParsed now s parsed choice hc ht
  have hau : (applyUsage s parsed).inputTokens = jsOrZero (getField? u "prompt_tokens") ∧
      (applyUsage s parsed).outputTokens = jsOrZero (getField? u "completion_tokens") := by
    unfold applyUsage
    rw [hu]
    simp [hut]
  refine ⟨hcp.1.trans hau.1, hcp.2.trans hau.2, ?_, getLast?_finishStream⟩
  intro q hq
  unfold processParsed
  cases hcq : choiceOf q with
  | none => rfl
  | some c =>
    rw [hcq] at hq
    have hqc : jsTruthy c = false := by simpa [optTruthy] using hq
    simp [hqc]

/-- Witness for C3: a chunk whose first choice is the truthy object
`{"delta":null}` and whose usage is `{prompt_tokens:7,
completion_tokens:3}` overwrites the counters to 7/3, while the same
session skips a chunk with an empty `choices` array outright. -/
theorem usage_overwrite_requires_choice_witness :
    (processParsed 0 initialStreamState
      (.obj [("choices", .arr [.obj [("delta", .null)]]),
             ("usage", .obj [("prompt_tokens", .num 7),
                             ("completion_tokens", .num 3)])])).1.inputTokens = .num 7 ∧
    (processParsed 0 initialStreamState
      (.obj [("choices", .arr [.obj [("delta", .null)]]),
             ("usage", .obj [("prompt_tokens", .num 7),
                             ("completion_tokens", .num 3)])])).1.outputTokens = .num 3 ∧
    processParsed 0 initialStreamState
      (.obj [("choices", .arr []),
             ("usage", .obj [("prompt_tokens", .num 7)])]) =
      (initialStreamState, []) := by
  have h := usage_overwrite_requires_choice 0 initialStreamState
    (.obj [("choices", .arr [.obj [("delta", .null)]]),
           ("usage", .obj [("prompt_tokens", .num 7),
                           ("completion_tokens", .num 3)])])
    (.obj [("delta", .null)])
    (.obj [("prompt_tokens", .num 7), ("completion_tokens", .num 3)])
    rfl rfl rfl rfl
  exact ⟨h.1, h.2.1,
    h.2.2.1 (.obj [("choices", .arr []), ("usage", .obj [("prompt_tokens", .num 7)])]) rfl⟩

/-- C9: a trailing fragment with no newline (the body did not end with
`'\n'`) is only appended to the carry-over buffer — no line is
processed, no event is emitted, no counter changes — and the
end-of-stream closing events are computed without ever reading the
buffer, so the buffered text is discarded unparsed. -/
theorem trailing_partial_line_discarded (now : Int) (s : StreamState) (chunk b : String)
    (h : containsNl (s.buffer ++ chunk) = false) :
    processChunk now s chunk = ({ s with buffer := s.buffer ++ chunk }, []) ∧
    finishStream { s with buffer := b } = finishStream s := by
  constructor
  · have key : jsSplitNl (s.buffer ++ chunk) = [s.buffer ++ chunk] := by
      unfold jsSplitNl
      rw [splitNlChars_of_no_nl _ h, List.map_cons, List.map_nil, mk_data]
    unfold processChunk
    rw [key]
    rfl
  · rfl

/-- Witness for C9: a complete, well-formed `data:` payload that
arrives without a trailing newline leaves the session state untouched
apart from the buffer. -/
theorem trailing_partial_line_discarded_witness :
    processChunk 0 initialStreamState
        "data: \x7b\"choices\":[\x7b\"delta\":\x7b\"content\":\"Hi\"\x7d\x7d]\x7d" =
      ({ initialStreamState with
          buffer := "data: \x7b\"choices\":[\x7b\"delta\":\x7b\"content\":\"Hi\"\x7d\x7d]\x7d" },
       []) ∧
    finishStream { initialStreamState with buffer := "leftover" } =
      finishStream initialStreamState := by
  have h := trailing_partial_line_discarded 0 initialStreamState
    "data: \x7b\"choices\":[\x7b\"delta\":\x7b\"content\":\"Hi\"\x7d\x7d]\x7d"
    "leftover" (by rfl)
  exact ⟨h.1, h.2⟩

/-- C10: a parsed chunk whose first choice is present (truthy) but has
no `delta` field only updates the counters from its usage object and is
otherwise skipped — no events, no accumulator flush, no change to the
terminal flag or any block state — so such a session can only terminate
at byte-stream end, whose sole `messageStop` carries `end_turn`. -/
theorem choice_without_delta_skipped (now : Int) (s : StreamState) (parsed choice : Json)
    (hc : choiceOf parsed = some choice) (ht : jsTruthy choice = true)
    (hd : getField? choice "delta" = none) (hdone : s.done = false) :
    processParsed now s parsed = (applyUsage s parsed, []) ∧
    (applyUsage s parsed).done = s.done ∧
    (applyUsage s parsed).toolCallAccumulator = s.toolCallAccumulator ∧
    (applyUsage s parsed).messageStartSent = s.messageStartSent ∧
    (applyUsage s parsed).currentContentBlockOpen = s.currentContentBlockOpen ∧
    (applyUsage s parsed).contentBlockIndex = s.contentBlockIndex ∧
    runChunks now s [] = finishStream s ∧
    messageStopsOf (finishStream s) = ["end_turn"] := by
  have hpres : (applyUsage s parsed).done = s.done ∧
      (applyUsage s parsed).toolCallAccumulator = s.toolCallAccumulator ∧
      (applyUsage s parsed).messageStartSent = s.messageStartSent ∧
      (applyUsage s parsed).currentContentBlockOpen = s.currentContentBlockOpen ∧
      (applyUsage s parsed).contentBlockIndex = s.contentBlockIndex := by
    unfold applyUsage
    cases getField? parsed "usage" with
    | none => exact ⟨rfl, rfl, rfl, rfl, rfl⟩
    | some u =>
      by_cases hut : jsTruthy u <;> simp [hut]
  refine ⟨?_, hpres.1, hpres.2.1, hpres.2.2.1, hpres.2.2.2.1, hpres.2.2.2.2, ?_, ?_⟩
  · unfold processParsed
    rw [hc]
    simp only [ht, if_pos, hd]
  · unfold runChunks
    rw [hdone]
    simp
  · exact messageStopsOf_finishStream s

/-- Witness for C10: a chunk whose only choice carries a
`finish_reason` but no `delta` — the finish reason is ignored, only the
usage is recorded. -/
theorem choice_without_delta_skipped_witness :
    processParsed 0 initialStreamState
        (.obj [("choices", .arr [.obj [("finish_reason", .str "stop")]]),
               ("usage", .obj [("prompt_tokens", .num 7)])]) =
      (applyUsage initialStreamState
        (.obj [("choices", .arr [.obj [("finish_reason", .str "stop")]]),
               ("usage", .obj [("prompt_tokens", .num 7)])]), []) ∧
    runChunks 0 initialStreamState [] = finishStream initialStreamState ∧
    messageStopsOf (finishStream initialStreamState) = ["end_turn"] := by
  have h := choice_without_delta_skipped 0 initialStreamState
    (.obj [("choices", .arr [.obj [("finish_reason", .str "stop")]]),
           ("usage", .obj [("prompt_tokens", .num 7)])])
    (.obj [("finish_reason", .str "stop")])
    rfl rfl rfl rfl
  exact ⟨h.1, h.2.2.2.2.2.2.1, h.2.2.2.2.2.2.2⟩

/-- `convertMessagesToOpenAI` on a single message. -/
theorem convertMessagesToOpenAI_singleton (now : Int) (m : Message) :
    convertMessagesToOpenAI now [m] =
      (match m.role with
       | .user => convertUserContent m.content
       | .assistant => [convertAssistantContent now m.content]) := by
  unfold convertMessagesToOpenAI
  rw [List.foldr_cons, List.foldr_nil, List.append_nil]

/-- C6 counterexample: a Text block carrying the empty string is
filtered out before joining, so the user message `[Text "a", Text ""]`
converts to wire content `"a"`, not the claim's all-blocks join
`"a\n"`. -/
theorem user_empty_text_block_ignored :
    convertMessagesToOpenAI 0 [⟨.user, [.text "a", .text ""]⟩] =
      [⟨"user", some "a", none, none⟩] ∧
    ("a" : String) ≠ "a" ++ "\n" ++ "" := by
  refine ⟨rfl, ?_⟩
  decide

/-- C6 amended: for every user message the converter emits one wire tool
message per ToolResult block in order (content = the truthy Text/Json
sub-blocks joined with newline, Json stringified; `tool_call_id` = its
`toolUseId` or `""`), then one wire user message holding the texts of
the NONEMPTY Text blocks joined with newline if any exist; a message
with no ToolResult block and no nonempty Text block yields one user
message with empty content; Text blocks carrying the empty string are
ignored throughout (they count neither toward the joined text nor
toward the blocks-present test). -/
theorem user_message_conversion (now : Int) (m : Message) (h : m.role = .user) :
    convertMessagesToOpenAI now [m] =
      (toolResultsOf m.content).map (fun tr =>
        ⟨"tool", some (toolResultContentText tr), none,
         some (match tr.toolUseId with
           | some id => id
           | none => "")⟩) ++
      (match truthyTextsOf m.content, toolResultsOf m.content with
       | [], [] => [⟨"user", some "", none, none⟩]
       | [], _ :: _ => []
       | t :: ts, _ => [⟨"user", some (jsJoin "\n" (t :: ts)), none, none⟩]) := by
  rcases m with ⟨r, content⟩
  cases h
  rw [convertMessagesToOpenAI_singleton]
  show convertUserContent content = _
  unfold convertUserContent
  refine congrArg₂ (· ++ ·) rfl ?_
  rcases htexts : truthyTextsOf content with _ | ⟨t, ts⟩
  · rcases htr : toolResultsOf content with _ | ⟨tr, trs⟩ <;> simp [htr]
  · have hmem : t ∈ truthyTextsOf content := by
      rw [htexts]
      exact List.mem_cons_self _ _
    have ht : t ≠ "" := (mem_truthyTextsOf content t hmem).2
    have hjoin : jsJoin "\n" (t :: ts) ≠ "" := jsJoin_ne_empty "\n" t ts ht
    simp [hjoin]

/-- Witness for C6 at a concrete user message: one ToolResult (whose
Json sub-block is stringified and joined to the text sub-block) and one
nonempty Text block. -/
theorem user_message_conversion_witness :
    convertMessagesToOpenAI 0
      [⟨.user,
        [.toolResult ⟨some "t1", some [.text "ok", .json (.obj [("a", .num 1)])]⟩,
         .text "x"]⟩] =
      [⟨"tool", some "ok\n\x7b\"a\":1\x7d", none, some "t1"⟩,
       ⟨"user", some "x", none, none⟩] :=
  user_message_conversion 0
    ⟨.user,
     [.toolResult ⟨some "t1", some [.text "ok", .json (.obj [("a", .num 1)])]⟩,
      .text "x"]⟩ rfl

theorem truthyTextsOf_eq_allTextsOf (content : List ContentBlock)
    (h : ∀ t, ContentBlock.text t ∈ content → t ≠ "") :
    truthyTextsOf content = allTextsOf content := by
  induction content with
  | nil => rfl
  | cons b tl ih =>
    have htl : ∀ t, ContentBlock.text t ∈ tl → t ≠ "" :=
      fun t ht => h t (List.mem_cons_of_mem _ ht)
    cases b with
    | text t =>
      have ht : t ≠ "" := h t (List.mem_cons_self _ _)
      simp only [truthyTextsOf, allTextsOf, List.filterMap_cons] at ih ⊢
      rw [if_pos ht, ih htl]
    | toolUse tu =>
      simp only [truthyTextsOf, allTextsOf, List.filterMap_cons] at ih ⊢
      exact ih htl
    | toolResult tr =>
      simp only [truthyTextsOf, allTextsOf, List.filterMap_cons] at ih ⊢
      exact ih htl

/-- C5 counterexample: a ToolUse whose `input` is the JSON string
`"42"` — the outbound converter passes string inputs through verbatim
as the wire `arguments`, the wire text `42` is JSON-parseable, yet the
non-streaming translator parses it back as the NUMBER 42, so the
round-trip does not preserve the input even though it is
JSON-parseable. -/
theorem roundtrip_string_input_not_preserved :
    jsonParse (toolUseArguments ⟨some "id1", some "f", .str "42"⟩) = some (.num 42) ∧
    convertMessagesToOpenAI 0
      [⟨.assistant, [.toolUse ⟨some "id1", some "f", .str "42"⟩]⟩] =
      [⟨"assistant", none, some [⟨"id1", ⟨"f", "42"⟩⟩], none⟩] ∧
    convertNonStreamingResponse
      (responseOf ⟨"assistant", none, some [⟨"id1", ⟨"f", "42"⟩⟩], none⟩) =
      some ⟨"assistant", [.toolUse ⟨"id1", "f", .num 42⟩], "end_turn", 0, 0, 0⟩ ∧
    Json.num 42 ≠ Json.str "42" := by
  refine ⟨rfl, rfl, rfl, ?_⟩
  intro h
  cases h

theorem conv_mkToolCall (now : Int) (tu : ToolUseBlock)
    (hid : ∃ id, tu.toolUseId = some id ∧ id ≠ "")
    (hparse : jsonParse (toolUseArguments tu) = some tu.input) :
    OutContentBlock.toolUse
      ⟨(mkToolCall now tu).id, (mkToolCall now tu).function.name,
       parseToolArguments (mkToolCall now tu).function.arguments⟩ =
    OutContentBlock.toolUse
      ⟨(match tu.toolUseId with
        | some id => id
        | none => ""),
       (match tu.name with
        | some nm => nm
        | none => ""),
       tu.input⟩ := by
  obtain ⟨id, hid1, hid2⟩ := hid
  unfold mkToolCall parseToolArguments
  simp only [hid1, hparse]
  simp [hid2]

/-- C5 amended: round-tripping a user or assistant message through the
outbound converter and the non-streaming translator yields one Text
block carrying the (nonempty) Text blocks' texts joined with newline,
followed by one ToolUse block per original ToolUse with its
`toolUseId`, `name` (defaulted to `""` when absent) and `input`
preserved — provided every Text block is nonempty, every ToolUse has a
nonempty `toolUseId`, and parsing the wire `arguments` string returns
the original `input` (true for truthy non-string JSON inputs, but NOT
for string inputs, which come back as their parsed JSON value — see the
counterexample). A user message must consist of Text blocks only (its
ToolResult blocks would fan out into separate wire messages). -/
theorem roundtrip_preserves_text_and_toolUse (now : Int) (m : Message)
    (hTexts : ∀ t, ContentBlock.text t ∈ m.content → t ≠ "")
    (hUser : m.role = .user → ∀ b ∈ m.content, ∃ t, b = ContentBlock.text t)
    (hTool : ∀ tu, ContentBlock.toolUse tu ∈ m.content →
        (∃ id, tu.toolUseId = some id ∧ id ≠ "") ∧
        jsonParse (toolUseArguments tu) = some tu.input) :
    ∃ w : OpenAIMessage, convertMessagesToOpenAI now [m] = [w] ∧
      ∃ out : ConverseOutput,
        convertNonStreamingResponse (responseOf w) = some out ∧
        out.content =
          (match allTextsOf m.content with
           | [] => []
           | t :: ts => [OutContentBlock.text (jsJoin "\n" (t :: ts))]) ++
          (toolUsesOf m.content).map (fun tu =>
            OutContentBlock.toolUse
              ⟨(match tu.toolUseId with
                | some id => id
                | none => ""),
               (match tu.name with
                | some nm => nm
                | none => ""),
               tu.input⟩) := by
  rcases m with ⟨r, content⟩
  dsimp only at hTexts hUser hTool ⊢
  have hAll := truthyTextsOf_eq_allTextsOf content hTexts
  cases r with
  | user =>
    have hOnly := hUser rfl
    have hTR : toolResultsOf content = [] := List.filterMap_eq_nil_iff.mpr (by
      intro b hb
      obtain ⟨t, rfl⟩ := hOnly b hb
      rfl)
    have hTU : toolUsesOf content = [] := List.filterMap_eq_nil_iff.mpr (by
      intro b hb
      obtain ⟨t, rfl⟩ := hOnly b hb
      rfl)
    rw [convertMessagesToOpenAI_singleton]
    show ∃ w, convertUserContent content = [w] ∧ _
    unfold convertUserContent
    rw [hTR]
    rcases htexts : truthyTextsOf content with _ | ⟨t, ts⟩
    · refine ⟨⟨"user", some "", none, none⟩, by simp, ?_⟩
      refine ⟨_, rfl, ?_⟩
      rw [← hAll, htexts, hTU]
      rfl
    · have ht : t ≠ "" := (mem_truthyTextsOf content t (by
        rw [htexts]
        exact List.mem_cons_self _ _)).2
      have hjoin : jsJoin "\n" (t :: ts) ≠ "" := jsJoin_ne_empty "\n" t ts ht
      refine ⟨⟨"user", some (jsJoin "\n" (t :: ts)), none, none⟩, by simp [hjoin], ?_⟩
      refine ⟨_, rfl, ?_⟩
      rw [← hAll, htexts, hTU]
      simp [hjoin]
  | assistant =>
    rw [convertMessagesToOpenAI_singleton]
    refine ⟨convertAssistantContent now content, rfl, ?_⟩
    have hconv : convertNonStreamingResponse
        (responseOf (convertAssistantContent now content))
        = some ⟨"assistant",
            (match (convertAssistantContent now content).content with
             | some s => if s ≠ "" then [OutContentBlock.text s] else []
             | none => []) ++
            (match (convertAssistantContent now content).tool_calls with
             | some tcs => tcs.map (fun tc => OutContentBlock.toolUse
                 ⟨tc.id, tc.function.name, parseToolArguments tc.function.arguments⟩)
             | none => []),
            "end_turn", 0, 0, 0⟩ := rfl
    refine ⟨_, hconv, ?_⟩
    refine congrArg₂ (· ++ ·) ?_ ?_
    · have hc : (convertAssistantContent now content).content =
          (if (truthyTextsOf content).length > 0
           then some (jsJoin "\n" (truthyTextsOf content)) else none) := rfl
      rw [hc, ← hAll]
      rcases htexts : truthyTextsOf content with _ | ⟨t, ts⟩
      · simp
      · have ht : t ≠ "" := (mem_truthyTextsOf content t (by
          rw [htexts]
          exact List.mem_cons_self _ _)).2
        have hjoin : jsJoin "\n" (t :: ts) ≠ "" := jsJoin_ne_empty "\n" t ts ht
        simp [hjoin]
    · have hc : (convertAssistantContent now content).tool_calls =
          (if ((toolUsesOf content).map (mkToolCall now)).length > 0
           then some ((toolUsesOf content).map (mkToolCall now)) else none) := rfl
      rw [hc]
      by_cases htus : toolUsesOf content = []
      · rw [htus]
        simp
      · have hlen : ((toolUsesOf content).map (mkToolCall now)).length > 0 := by
          have := List.length_pos.mpr htus
          simpa [List.length_map]
        rw [if_pos hlen]
        show ((toolUsesOf content).map (mkToolCall now)).map _ = _
        rw [List.map_map]
        refine List.map_congr_left ?_
        intro x hx
        have h := hTool x (mem_toolUsesOf content x hx)
        exact conv_mkToolCall now x h.1 h.2

/-- Witness for C5: an assistant message with text `"hi"` and a ToolUse
`lookup` whose object input survives the round trip intact. -/
theorem roundtrip_preserves_text_and_toolUse_witness :
    ∃ w : OpenAIMessage,
      convertMessagesToOpenAI 0
        [⟨.assistant,
          [.text "hi",
           .toolUse ⟨some "call_1", some "lookup", .obj [("q", .num 1)]⟩]⟩] = [w] ∧
      ∃ out : ConverseOutput,
        convertNonStreamingResponse (responseOf w) = some out ∧
        out.content =
          [OutContentBlock.text "hi",
           OutContentBlock.toolUse ⟨"call_1", "lookup", .obj [("q", .num 1)]⟩] := by
  have h := roundtrip_preserves_text_and_toolUse 0
    ⟨.assistant,
     [.text "hi", .toolUse ⟨some "call_1", some "lookup", .obj [("q", .num 1)]⟩]⟩
    (by
      intro t ht
      simp only [List.mem_cons, List.not_mem_nil, or_false] at ht
      rcases ht with h1 | h1
      · cases h1
        decide
      · exact ContentBlock.noConfusion h1)
    (by
      intro hr
      exact Role.noConfusion hr)
    (by
      intro tu htu
      simp only [List.mem_cons, List.not_mem_nil, or_false] at htu
      rcases htu with h1 | h1
      · exact ContentBlock.noConfusion h1
      · cases h1
        exact ⟨⟨"call_1", rfl, by decide⟩, rfl⟩)
  exact h
